import Mathlib

/-!
Verification of the EOSIO ABI → GraphQL AST resolver of the smartql
repository, a shallow embedding of `src/eosio_abi_to_graphql_ast.mjs`
(`handleBaseFields`, `handleStructs`, `eosio_abi_to_graphql_ast`).

JavaScript runtime behaviour is modelled explicitly:

* a thrown `TypeError` (destructuring or spreading `undefined`, or reading
  `.length` of `undefined`) is `JsErr.typeError`;
* the source's `handleBaseFields` recursion has no cycle detection, so it is
  modelled with a fuel parameter; `JsErr.stackOverflow` for every fuel value
  means the source recursion never terminates (in a real engine: stack
  exhaustion);
* a JavaScript object used as a string-keyed map is an insertion-ordered
  association list: `objInsert` overwrites the value of an existing key in
  place and appends a fresh key at the end, `objLookup` reads a key;
* a struct entry whose `fields` is `none` models an entry whose `fields`
  property is `undefined` (the alias-expansion loop builds such entries when
  `new_structs.find` returns `undefined` and `{...undefined, name}` is
  spread).
-/

/-- JavaScript failure modes of the resolver. -/
inductive JsErr where
  | typeError
  | stackOverflow
  deriving DecidableEq

/-- An ABI field declaration `{ name, type }` with a raw type string. -/
structure FieldDecl where
  name : String
  type : String
  deriving DecidableEq

/-- The `$info` flags computed per field in `handleStructs` (lines 45-50). -/
structure FieldInfo where
  object : Bool
  optional : Bool
  list : Bool
  binary_ex : Bool
  variant : Bool
  deriving DecidableEq

/-- A resolved AST field `{ name, type, $info }` (lines 51-55). -/
structure AstField where
  name : String
  type : String
  info : FieldInfo
  deriving DecidableEq

/-- A working-list struct entry `{ name, base, fields }`; `base = ""` is the
falsy no-base case, `fields = none` models an `undefined` fields property. -/
structure StructEntry where
  name : String
  base : String
  fields : Option (List FieldDecl)
  deriving DecidableEq

/-- An ABI variant declaration `{ name, types }`. -/
structure VariantDef where
  name : String
  types : List String
  deriving DecidableEq

/-- An ABI alias declaration `{ new_type_name, type }`. -/
structure TypeAlias where
  new_type_name : String
  type : String
  deriving DecidableEq

/-- The parts of the ABI document the resolver consumes
(`const { types, variants, structs } = abi`, line 69). -/
structure ABI where
  types : List TypeAlias
  variants : List VariantDef
  structs : List StructEntry
  deriving DecidableEq

/-- Modelled from the spec: the Primitive Type Registry (`eosio_types.mjs` is
imported by the resolver but is not among the given source files).  Per the
spec it is "a fixed table mapping built-in ABI primitive type names (integers
of various widths, boolean, name, asset, symbol, public key, signature,
checksum variants, time types, bytes, string) to codec implementations"; only
its key set matters here, since membership decides the `object` flag. -/
def eosio_types : List String :=
  ["bool", "int8", "uint8", "int16", "uint16", "int32", "uint32",
   "int64", "uint64", "int128", "uint128", "varint32", "varuint32",
   "float32", "float64", "float128",
   "time_point", "time_point_sec", "block_timestamp_type",
   "name", "bytes", "string",
   "checksum160", "checksum256", "checksum512",
   "public_key", "signature", "symbol", "symbol_code", "asset",
   "extended_asset"]

/-- The five marker characters removed by `field.type.replace(/[[\]?$@]/gmu, "")`
(line 49): each of `[`, `]`, `?`, `$`, `@` individually. -/
def marker_chars : List Char := ['[', ']', '?', '$', '@']

/-- Truthiness of `s.match(regex)` for a single-character class: the string
contains the character. -/
def hasChar (s : String) (c : Char) : Bool := s.data.contains c

/-- Truthiness of `s.match(/\[\]/gmu)` (line 48): the two-character substring
`[]` occurs somewhere in the string. -/
def hasListMarker : List Char → Bool
  | [] => false
  | [_] => false
  | c :: c2 :: rest => (c == '[' && c2 == ']') || hasListMarker (c2 :: rest)

/-- `field.type.replace(/[[\]?$@]/gmu, "")` (line 49): delete every marker
character, keep everything else in order. -/
def stripMarkers (s : String) : String :=
  String.mk (s.data.filter (fun c => !marker_chars.contains c))

/-- The per-field body of the inner loop of `handleStructs` (lines 44-56):
compute the flags from the raw type string, strip the markers, and test the
residual against the primitive registry (`!eosio_types[type]`). -/
def mkAstField (f : FieldDecl) : AstField :=
  { name := f.name,
    type := stripMarkers f.type,
    info :=
      { object := !eosio_types.contains (stripMarkers f.type),
        optional := hasChar f.type '$' || hasChar f.type '?',
        list := hasListMarker f.type.data,
        binary_ex := hasChar f.type '$',
        variant := hasChar f.type '@' } }

/-- `structs.find(({ name }) => name == base)` (line 20 and line 83). -/
def findStruct (structs : List StructEntry) (n : String) : Option StructEntry :=
  structs.find? (fun s => s.name == n)

/-- Assemble `[...inherited, ...fields]` (lines 22-25): an error from the
recursive call propagates; spreading an `undefined` fields property throws a
`TypeError`. -/
def hbfCombine (inherited : Except JsErr (List FieldDecl))
    (fields : Option (List FieldDecl)) : Except JsErr (List FieldDecl) :=
  match inherited, fields with
  | .error e, _ => .error e
  | .ok _, none => .error .typeError
  | .ok bf, some fs => .ok (bf ++ fs)

/-- `handleBaseFields(base, structs)` (lines 19-26).  The source recursion has
no termination guard, so it is driven by fuel; a `find` miss makes the
destructuring on line 21 throw a `TypeError`. -/
def handleBaseFields : Nat → String → List StructEntry → Except JsErr (List FieldDecl)
  | 0, _, _ => .error .stackOverflow
  | fuel + 1, base, structs =>
    match findStruct structs base with
    | none => .error .typeError
    | some s =>
      hbfCombine
        (if s.base = "" then .ok [] else handleBaseFields fuel s.base structs)
        s.fields

/-- `fields_with_base_fields` for one struct (lines 39-41), including the
`TypeError` raised later when `fields` is `undefined` (spreading it on line 40,
or reading `.length` on line 43). -/
def fieldsWithBase (fuel : Nat) (structs : List StructEntry) (s : StructEntry) :
    Except JsErr (List FieldDecl) :=
  if s.base = "" then
    match s.fields with
    | none => .error .typeError
    | some fs => .ok fs
  else
    hbfCombine (handleBaseFields fuel s.base structs) s.fields

/-- JavaScript object assignment `obj[k] = v`: replace the value of an
existing key in place, otherwise append the new key. -/
def objInsert (k : String) (v : α) : List (String × α) → List (String × α)
  | [] => [(k, v)]
  | (k2, v2) :: rest =>
    if k2 = k then (k2, v) :: rest else (k2, v2) :: objInsert k v rest

/-- JavaScript object property read `obj[k]`. -/
def objLookup (k : String) : List (String × α) → Option α
  | [] => none
  | (k2, v2) :: rest => if k2 = k then some v2 else objLookup k rest

/-- The outer loop of `handleStructs` (lines 37-59): process each struct of
the working list in order, assigning `graphql_ast_structs[name] = ast_fields`. -/
def handleStructsGo (fuel : Nat) (structs : List StructEntry) :
    List StructEntry → List (String × List AstField) →
    Except JsErr (List (String × List AstField))
  | [], acc => .ok acc
  | s :: rest, acc =>
    match fieldsWithBase fuel structs s with
    | .error e => .error e
    | .ok fl => handleStructsGo fuel structs rest (objInsert s.name (fl.map mkAstField) acc)

/-- `handleStructs(structs)` (lines 34-61). -/
def handleStructs (fuel : Nat) (structs : List StructEntry) :
    Except JsErr (List (String × List AstField)) :=
  handleStructsGo fuel structs structs []

/-- The struct synthesized for a variant (lines 74-78): no base, one field
per member type `ti`, each `{ name: ti, type: ti + "$@" }`. -/
def synthVariantStruct (v : VariantDef) : StructEntry :=
  { name := v.name, base := "",
    fields := some (v.types.map (fun t => { name := t, type := t ++ "$@" })) }

/-- The variant loop (lines 72-78): push one synthetic struct per variant, in
declaration order, onto the working list. -/
def variantPhase : List StructEntry → List VariantDef → List StructEntry
  | structs, [] => structs
  | structs, v :: rest => variantPhase (structs ++ [synthVariantStruct v]) rest

/-- The entry pushed for one alias (lines 82-85):
`{...new_structs.find((x) => x.name == real_type), name: new_type_name}`.
When `find` misses, spreading `undefined` into an object literal contributes
nothing, leaving an entry with only a `name` (so `base` and `fields` are
`undefined`). -/
def aliasCopy (structs : List StructEntry) (a : TypeAlias) : StructEntry :=
  match findStruct structs a.type with
  | none => { name := a.new_type_name, base := "", fields := none }
  | some e => { e with name := a.new_type_name }

/-- The alias loop (lines 80-86): push one copy per alias, in declaration
order; each `find` scans the list as grown so far. -/
def aliasPhase : List StructEntry → List TypeAlias → List StructEntry
  | structs, [] => structs
  | structs, a :: rest => aliasPhase (structs ++ [aliasCopy structs a]) rest

/-- The working struct list handed to `handleStructs` (line 88): declared
structs, then synthesized variant structs, then alias copies. -/
def workingStructs (abi : ABI) : List StructEntry :=
  aliasPhase (variantPhase abi.structs abi.variants) abi.types

/-- `eosio_abi_to_graphql_ast(abi)` (lines 68-91); `Object.freeze` has no
observable effect in the embedding. -/
def eosio_abi_to_graphql_ast (fuel : Nat) (abi : ABI) :
    Except JsErr (List (String × List AstField)) :=
  handleStructs fuel (workingStructs abi)

/-- The value of the caller's `abi.structs` array after the call returns:
`const new_structs = structs` (line 70) binds the very same array object as
`abi.structs`, so every `push` of the variant and alias loops lands in the
caller's document. -/
def structsAfterCall (abi : ABI) : List StructEntry :=
  workingStructs abi

/-- ABI with a self-referential base chain: struct `A` has `base: "A"`. -/
def abiCyclic : ABI := ⟨[], [], [⟨"A", "A", some []⟩]⟩

/-- ABI with a single variant and nothing else. -/
def abiVariantOnly : ABI := ⟨[], [⟨"v", ["string"]⟩], []⟩

/-- ABI whose single field's raw type consists only of marker characters. -/
def abiEmptyType : ABI := ⟨[], [], [⟨"s", "", some [⟨"f", "$@"⟩]⟩]⟩

/-- ABI whose single struct declares two fields named `x`, the second of a
type that is neither primitive nor declared. -/
def abiDupField : ABI :=
  ⟨[], [], [⟨"s", "", some [⟨"x", "string"⟩, ⟨"x", "ghost"⟩]⟩]⟩

/-- ABI whose single struct references `base: "ghost"` with no such struct. -/
def abiGhostBase : ABI := ⟨[], [], [⟨"s", "ghost", some []⟩]⟩

/-- ABI with structs `B` (no base, field `a`) and `C` (`base: "B"`, field `b`). -/
def abiInherit : ABI :=
  ⟨[], [], [⟨"B", "", some [⟨"a", "string"⟩]⟩, ⟨"C", "B", some [⟨"b", "string"⟩]⟩]⟩

/-- ABI aliasing `N` to the variant `V`. -/
def abiAliasVariant : ABI :=
  ⟨[⟨"N", "V"⟩], [⟨"V", ["string"]⟩], [⟨"B", "", some [⟨"a", "string"⟩]⟩]⟩

/-- ABI in which a declared struct and a variant share the name `X`. -/
def abiDupName : ABI :=
  ⟨[], [⟨"X", ["uint64"]⟩], [⟨"X", "", some [⟨"p", "string"⟩]⟩]⟩

/-- Combining with a failed recursive call propagates the failure. -/
theorem hbfCombine_error (e : JsErr) (fields : Option (List FieldDecl)) :
    hbfCombine (.error e) fields = .error e := by
  cases fields <;> rfl

/-- Combining with an `undefined` fields property throws. -/
theorem hbfCombine_ok_none (bf : List FieldDecl) :
    hbfCombine (.ok bf) none = .error .typeError := rfl

/-- Combining concatenates inherited fields with own fields. -/
theorem hbfCombine_ok_some (bf fs : List FieldDecl) :
    hbfCombine (.ok bf) (some fs) = .ok (bf ++ fs) := rfl

/-- Unfolding the base-field recursion when the base name is not found. -/
theorem handleBaseFields_eq_none (fuel : Nat) (b : String)
    (structs : List StructEntry) (h : findStruct structs b = none) :
    handleBaseFields (fuel + 1) b structs = .error .typeError := by
  rw [handleBaseFields, h]

/-- Unfolding the base-field recursion when the base name is found. -/
theorem handleBaseFields_eq_some (fuel : Nat) (b : String)
    (structs : List StructEntry) (s : StructEntry)
    (h : findStruct structs b = some s) :
    handleBaseFields (fuel + 1) b structs =
      hbfCombine (if s.base = "" then .ok [] else handleBaseFields fuel s.base structs)
        s.fields := by
  rw [handleBaseFields, h]

/-- Looking up a key just assigned returns the assigned value. -/
theorem objLookup_objInsert_self (k : String) (v : α) (l : List (String × α)) :
    objLookup k (objInsert k v l) = some v := by
  induction l with
  | nil => simp [objInsert, objLookup]
  | cons h t ih =>
    obtain ⟨k2, v2⟩ := h
    by_cases hk : k2 = k
    · simp [objInsert, objLookup, hk]
    · simp [objInsert, objLookup, hk, ih]

/-- Assigning one key leaves the lookup of every other key unchanged. -/
theorem objLookup_objInsert_ne (k k2 : String) (v : α) (l : List (String × α))
    (hk : k ≠ k2) : objLookup k2 (objInsert k v l) = objLookup k2 l := by
  have hk2 : k2 ≠ k := Ne.symm hk
  induction l with
  | nil => simp [objInsert, objLookup, hk]
  | cons h t ih =>
    obtain ⟨k3, v3⟩ := h
    by_cases h3 : k3 = k
    · subst h3
      simp [objInsert, objLookup, hk]
    · by_cases h32 : k3 = k2
      · subst h32
        simp [objInsert, objLookup, h3]
      · simp [objInsert, objLookup, h3, h32, ih]

/-- `find` over a concatenation prefers the left list. -/
theorem findStruct_append (l1 l2 : List StructEntry) (n : String) :
    findStruct (l1 ++ l2) n = (findStruct l1 n).or (findStruct l2 n) := by
  simp [findStruct, List.find?_append]

/-- A successful `find` returns a member whose name is the searched name. -/
theorem findStruct_mem_name (structs : List StructEntry) (n : String)
    (e : StructEntry) (h : findStruct structs n = some e) :
    e ∈ structs ∧ e.name = n := by
  refine ⟨List.mem_of_find?_eq_some h, ?_⟩
  have := List.find?_some h
  simpa [beq_iff_eq] using this

/-- With pairwise-distinct names, `find` locates any given member by name. -/
theorem findStruct_eq_of_mem_nodup (structs : List StructEntry)
    (hnodup : (structs.map StructEntry.name).Nodup) (c : StructEntry)
    (hc : c ∈ structs) : findStruct structs c.name = some c := by
  have hsome : (findStruct structs c.name).isSome = true := by
    simp only [findStruct, List.find?_isSome]
    exact ⟨c, hc, by simp⟩
  obtain ⟨e, he⟩ := Option.isSome_iff_exists.mp hsome
  obtain ⟨hmem, hname⟩ := findStruct_mem_name structs c.name e he
  have : e = c := List.inj_on_of_nodup_map hnodup hmem hc hname
  rw [he, this]

/-- With pairwise-distinct names, searching the reversed list finds the same
entry as searching the list itself. -/
theorem findStruct_reverse_of_nodup (structs : List StructEntry)
    (hnodup : (structs.map StructEntry.name).Nodup) (k : String) :
    findStruct structs.reverse k = findStruct structs k := by
  cases hf : findStruct structs k with
  | none =>
    rw [findStruct, List.find?_eq_none] at hf ⊢
    intro x hx
    exact hf x (List.mem_reverse.mp hx)
  | some e =>
    obtain ⟨hmem, hname⟩ := findStruct_mem_name structs k e hf
    have hnodup2 : (structs.reverse.map StructEntry.name).Nodup := by
      rw [List.map_reverse, List.nodup_reverse]
      exact hnodup
    have := findStruct_eq_of_mem_nodup structs.reverse hnodup2 e
      (List.mem_reverse.mpr hmem)
    rw [hname] at this
    rw [this]

/-- Success of the fueled base-field recursion is stable under more fuel. -/
theorem handleBaseFields_mono : ∀ (m n : Nat) (b : String)
    (structs : List StructEntry) (l : List FieldDecl), m ≤ n →
    handleBaseFields m b structs = .ok l → handleBaseFields n b structs = .ok l := by
  intro m
  induction m with
  | zero => intro n b structs l _ h; simp [handleBaseFields] at h
  | succ m ih =>
    intro n b structs l hmn h
    obtain ⟨n2, rfl⟩ : ∃ n2, n = n2 + 1 := ⟨n - 1, by omega⟩
    cases hfind : findStruct structs b with
    | none =>
      rw [handleBaseFields_eq_none m b structs hfind] at h
      exact absurd h (by simp)
    | some s =>
      rw [handleBaseFields_eq_some m b structs s hfind] at h
      rw [handleBaseFields_eq_some n2 b structs s hfind]
      by_cases hb : s.base = ""
      · rw [if_pos hb] at h ⊢
        exact h
      · rw [if_neg hb] at h ⊢
        cases hr : handleBaseFields m s.base structs with
        | error e =>
          rw [hr, hbfCombine_error] at h
          exact absurd h (by simp)
        | ok bf =>
          rw [hr] at h
          rw [ih n2 s.base structs bf (by omega) hr]
          exact h

/-- Success of `fields_with_base_fields` is stable under more fuel. -/
theorem fieldsWithBase_mono (m n : Nat) (structs : List StructEntry)
    (s : StructEntry) (l : List FieldDecl) (hmn : m ≤ n)
    (h : fieldsWithBase m structs s = .ok l) :
    fieldsWithBase n structs s = .ok l := by
  rw [fieldsWithBase] at h ⊢
  by_cases hb : s.base = ""
  · rwa [if_pos hb] at h ⊢
  · rw [if_neg hb] at h ⊢
    cases hr : handleBaseFields m s.base structs with
    | error e =>
      rw [hr, hbfCombine_error] at h
      exact absurd h (by simp)
    | ok bf =>
      rw [hr] at h
      rw [handleBaseFields_mono m n s.base structs bf hmn hr]
      exact h

/-- Unfolding one step of the base-field recursion: resolving a base name
computes exactly `fields_with_base_fields` of the found base struct. -/
theorem handleBaseFields_succ_eq (fuel : Nat) (b : String)
    (structs : List StructEntry) (s : StructEntry)
    (hfind : findStruct structs b = some s) :
    handleBaseFields (fuel + 1) b structs = fieldsWithBase fuel structs s := by
  rw [handleBaseFields_eq_some fuel b structs s hfind, fieldsWithBase]
  by_cases hb : s.base = ""
  · rw [if_pos hb, if_pos hb]
    cases s.fields with
    | none => rw [hbfCombine_ok_none]
    | some fs => rw [hbfCombine_ok_some, List.nil_append]
  · rw [if_neg hb, if_neg hb]

/-- Unfolding the struct loop on a cons cell. -/
theorem handleStructsGo_cons (fuel : Nat) (structs : List StructEntry)
    (s : StructEntry) (rest : List StructEntry)
    (acc : List (String × List AstField)) :
    handleStructsGo fuel structs (s :: rest) acc =
      match fieldsWithBase fuel structs s with
      | .error e => .error e
      | .ok fl => handleStructsGo fuel structs rest
          (objInsert s.name (fl.map mkAstField) acc) := rfl

/-- What the struct loop writes for each key: the key's value in the final
object is the per-field transform of the last processed entry of that name,
and a key no processed entry bears is left as the accumulator had it. -/
theorem handleStructsGo_lookup (fuel : Nat) (structs : List StructEntry) :
    ∀ (l : List StructEntry) (acc out : List (String × List AstField)),
      handleStructsGo fuel structs l acc = .ok out → ∀ (k : String),
      (∀ e, findStruct l.reverse k = some e →
        ∃ dl, fieldsWithBase fuel structs e = .ok dl ∧
          objLookup k out = some (dl.map mkAstField)) ∧
      (findStruct l.reverse k = none → objLookup k out = objLookup k acc) := by
  intro l
  induction l with
  | nil =>
    intro acc out h k
    rw [handleStructsGo] at h
    have hout : acc = out := by simpa using h
    subst hout
    constructor
    · intro e he
      simp [findStruct] at he
    · intro _
      rfl
  | cons s rest ih =>
    intro acc out h k
    rw [handleStructsGo_cons] at h
    cases hfw : fieldsWithBase fuel structs s with
    | error e =>
      rw [hfw] at h
      exact absurd h (by simp)
    | ok fl =>
      rw [hfw] at h
      have IH := ih (objInsert s.name (fl.map mkAstField) acc) out h k
      have hrev : (s :: rest).reverse = rest.reverse ++ [s] := by
        simp
      constructor
      · intro e he
        rw [hrev, findStruct_append] at he
        cases hr : findStruct rest.reverse k with
        | some e2 =>
          rw [hr] at he
          have he2 : e2 = e := by simpa [Option.or] using he
          subst he2
          exact IH.1 e2 hr
        | none =>
          rw [hr] at he
          have hsk : s.name = k ∧ e = s := by
            by_cases hname : s.name = k
            · refine ⟨hname, ?_⟩
              have hbeq : (s.name == k) = true := beq_iff_eq.mpr hname
              simp [Option.or, findStruct, List.find?, hbeq] at he
              exact he.symm
            · exfalso
              have hbeq : (s.name == k) = false := by
                simp [hname]
              simp [Option.or, findStruct, List.find?, hbeq] at he
          obtain ⟨hname, rfl⟩ := hsk
          refine ⟨fl, hfw, ?_⟩
          have := IH.2 hr
          rw [this, ← hname, objLookup_objInsert_self]
      · intro hnone
        rw [hrev, findStruct_append] at hnone
        cases hr : findStruct rest.reverse k with
        | some e2 => rw [hr] at hnone; simp [Option.or] at hnone
        | none =>
          rw [hr] at hnone
          have hname : s.name ≠ k := by
            intro heq
            have hbeq : (s.name == k) = true := beq_iff_eq.mpr heq
            simp [Option.or, findStruct, List.find?, hbeq] at hnone
          rw [IH.2 hr, objLookup_objInsert_ne s.name k (fl.map mkAstField) acc hname]

/-- What `handleStructs` maps each key to: the transform of the last working
list entry of that name, and nothing for any other key. -/
theorem handleStructs_lookup (fuel : Nat) (structs : List StructEntry)
    (out : List (String × List AstField))
    (h : handleStructs fuel structs = .ok out) (k : String) :
    (∀ e, findStruct structs.reverse k = some e →
      ∃ dl, fieldsWithBase fuel structs e = .ok dl ∧
        objLookup k out = some (dl.map mkAstField)) ∧
    (findStruct structs.reverse k = none → objLookup k out = none) := by
  have := handleStructsGo_lookup fuel structs structs [] out h k
  exact ⟨this.1, fun hn => this.2 hn⟩

/-- If the struct loop completes, every entry of the traversed list resolved
its `fields_with_base_fields` successfully. -/
theorem handleStructsGo_ok_forall (fuel : Nat) (structs : List StructEntry) :
    ∀ (l : List StructEntry) (acc out : List (String × List AstField)),
      handleStructsGo fuel structs l acc = .ok out →
      ∀ s ∈ l, ∃ dl, fieldsWithBase fuel structs s = .ok dl := by
  intro l
  induction l with
  | nil => intro acc out _ s hs; simp at hs
  | cons s2 rest ih =>
    intro acc out h s hs
    rw [handleStructsGo_cons] at h
    cases hfw : fieldsWithBase fuel structs s2 with
    | error e =>
      rw [hfw] at h
      exact absurd h (by simp)
    | ok fl =>
      rw [hfw] at h
      rcases List.mem_cons.mp hs with rfl | hmem
      · exact ⟨fl, hfw⟩
      · exact ih (objInsert s2.name (fl.map mkAstField) acc) out h s hmem

/-- A base name absent from the struct list fails for every fuel value. -/
theorem handleBaseFields_err_of_find_none (fuel : Nat) (b : String)
    (structs : List StructEntry) (h : findStruct structs b = none) :
    ∃ e, handleBaseFields fuel b structs = .error e := by
  cases fuel with
  | zero => exact ⟨.stackOverflow, rfl⟩
  | succ n => exact ⟨.typeError, handleBaseFields_eq_none n b structs h⟩

/-- A struct whose base name is absent from the working list cannot resolve
its field list. -/
theorem fieldsWithBase_err_of_ghost_base (fuel : Nat)
    (structs : List StructEntry) (s : StructEntry) (hb : s.base ≠ "")
    (h : findStruct structs s.base = none) :
    ∃ e, fieldsWithBase fuel structs s = .error e := by
  obtain ⟨e, he⟩ := handleBaseFields_err_of_find_none fuel s.base structs h
  refine ⟨e, ?_⟩
  rw [fieldsWithBase, if_neg hb, he, hbfCombine_error]

/-- An entry with an `undefined` fields property cannot resolve. -/
theorem fieldsWithBase_err_of_no_fields (fuel : Nat)
    (structs : List StructEntry) (s : StructEntry) (h : s.fields = none) :
    ∃ e, fieldsWithBase fuel structs s = .error e := by
  rw [fieldsWithBase]
  by_cases hb : s.base = ""
  · rw [if_pos hb, h]
    exact ⟨.typeError, rfl⟩
  · rw [if_neg hb, h]
    cases hr : handleBaseFields fuel s.base structs with
    | error e => exact ⟨e, by rw [hbfCombine_error]⟩
    | ok bf => exact ⟨.typeError, by rw [hbfCombine_ok_none]⟩

/-- The alias loop only ever appends to the working list. -/
theorem aliasPhase_extra : ∀ (ts : List TypeAlias) (l : List StructEntry),
    ∃ extra, aliasPhase l ts = l ++ extra := by
  intro ts
  induction ts with
  | nil => intro l; exact ⟨[], by rw [aliasPhase, List.append_nil]⟩
  | cons a rest ih =>
    intro l
    obtain ⟨extra, hextra⟩ := ih (l ++ [aliasCopy l a])
    exact ⟨[aliasCopy l a] ++ extra, by rw [aliasPhase, hextra, List.append_assoc]⟩

/-- Processing a concatenated alias list processes the pieces in turn. -/
theorem aliasPhase_append : ∀ (ts1 ts2 : List TypeAlias) (l : List StructEntry),
    aliasPhase l (ts1 ++ ts2) = aliasPhase (aliasPhase l ts1) ts2 := by
  intro ts1
  induction ts1 with
  | nil => intro ts2 l; rfl
  | cons a rest ih =>
    intro ts2 l
    rw [List.cons_append, aliasPhase, aliasPhase, ih]

/-- `hasListMarker` holds exactly when `[` immediately followed by `]` occurs
in the character list. -/
theorem hasListMarker_iff : ∀ (l : List Char),
    hasListMarker l = true ↔ ['[', ']'] <:+: l := by
  intro l
  induction l with
  | nil => simp [hasListMarker]
  | cons c rest ih =>
    cases rest with
    | nil =>
      simp only [hasListMarker]
      constructor
      · intro h; exact absurd h (by simp)
      · intro h
        have := h.length_le
        simp at this
    | cons c2 rest2 =>
      rw [hasListMarker]
      rw [List.infix_cons_iff, List.cons_prefix_cons]
      constructor
      · intro h
        rcases Bool.or_eq_true_iff.mp h with h1 | h2
        · obtain ⟨hc, hc2⟩ := Bool.and_eq_true_iff.mp h1
          left
          refine ⟨(beq_iff_eq.mp hc).symm, ?_⟩
          rw [List.cons_prefix_cons]
          exact ⟨(beq_iff_eq.mp hc2).symm, List.nil_prefix⟩
        · right
          exact ih.mp h2
      · intro h
        rcases h with ⟨hc, hpre⟩ | hinf
        · rw [List.cons_prefix_cons] at hpre
          apply Bool.or_eq_true_iff.mpr
          left
          apply Bool.and_eq_true_iff.mpr
          exact ⟨beq_iff_eq.mpr hc.symm, beq_iff_eq.mpr hpre.1.symm⟩
        · apply Bool.or_eq_true_iff.mpr
          right
          exact ih.mpr hinf

/-- `hasChar` holds exactly when the character occurs in the string. -/
theorem hasChar_iff (s : String) (c : Char) : hasChar s c = true ↔ c ∈ s.data := by
  simp [hasChar, List.contains, List.elem_iff]

/-- Claim C1, counterexample: for the field declaration `{name: "f", type:
"name$"}` the resolved `is_optional` flag is `true` although the raw type
string contains no `?` character, so "`is_optional` is true iff the string
contains `?`" fails (the source tests the class `[$?]`, line 45). -/
theorem c1_counterexample :
    ¬ (((mkAstField ⟨"f", "name$"⟩).info.optional = true) ↔
        '?' ∈ ("name$" : String).data) := by
  decide

/-- Claim C1, amended: for every field declaration, the resolved descriptor
computes its five attributes independently from the raw type string: `is_list`
iff the substring `[]` occurs, `is_optional` iff the string contains `?` or
`$` (the source's regex `[$?]` also counts binary-extension markers as
optional), `is_extension` iff it contains `$`, `is_variant_member` iff it
contains `@`, and `is_object` iff the residual base name, with all marker
characters removed, is not a key of the Primitive Type Registry. -/
theorem c1_field_descriptor_flags (f : FieldDecl) :
    ((mkAstField f).info.list = true ↔ ['[', ']'] <:+: f.type.data) ∧
    ((mkAstField f).info.optional = true ↔
      ('?' ∈ f.type.data ∨ '$' ∈ f.type.data)) ∧
    ((mkAstField f).info.binary_ex = true ↔ '$' ∈ f.type.data) ∧
    ((mkAstField f).info.variant = true ↔ '@' ∈ f.type.data) ∧
    ((mkAstField f).info.object = true ↔ stripMarkers f.type ∉ eosio_types) := by
  refine ⟨?_, ?_, ?_, ?_, ?_⟩
  · simpa [mkAstField] using hasListMarker_iff f.type.data
  · simp only [mkAstField, Bool.or_eq_true, hasChar_iff]
    exact or_comm
  · simpa [mkAstField] using hasChar_iff f.type '$'
  · simpa [mkAstField] using hasChar_iff f.type '@'
  · simp [mkAstField, List.contains, List.elem_iff]

/-- The self-referential base chain of `abiCyclic` exhausts every amount of
fuel: the source recursion never terminates. -/
theorem handleBaseFields_cyclic (fuel : Nat) :
    handleBaseFields fuel "A" [⟨"A", "A", some []⟩] = .error .stackOverflow := by
  induction fuel with
  | zero => rfl
  | succ n ih =>
    rw [handleBaseFields_eq_some n "A" [⟨"A", "A", some []⟩] ⟨"A", "A", some []⟩ rfl]
    rw [if_neg (by decide), ih, hbfCombine_error]

/-- Claim C2: on an ABI whose struct `A` has `base: "A"`, resolution does not
terminate — `handleBaseFields` revisits the same name with no visited-set, so
for every recursion-depth budget the run ends in stack exhaustion, never in a
`CyclicInheritance` signal (the claim asserts it terminates with
`CyclicInheritance`). -/
theorem c2_cyclic_base_never_terminates (fuel : Nat) :
    eosio_abi_to_graphql_ast fuel abiCyclic = .error .stackOverflow := by
  have hwork : workingStructs abiCyclic = [⟨"A", "A", some []⟩] := rfl
  rw [eosio_abi_to_graphql_ast, handleStructs, hwork, handleStructsGo_cons]
  have hfw : fieldsWithBase fuel [⟨"A", "A", some []⟩] ⟨"A", "A", some []⟩ =
      .error .stackOverflow := by
    rw [fieldsWithBase, if_neg (by decide), handleBaseFields_cyclic fuel,
      hbfCombine_error]
  rw [hfw]

/-- Claim C3: the input ABI document is not left unchanged.  `const
new_structs = structs` (line 70) aliases the caller's array, so the variant
loop's `push` lands in `abi.structs`: after resolving an ABI with one variant
and no structs, the caller's structs list has gained the synthetic variant
struct. -/
theorem c3_input_structs_mutated :
    structsAfterCall abiVariantOnly ≠ abiVariantOnly.structs ∧
    structsAfterCall abiVariantOnly =
      abiVariantOnly.structs ++ [⟨"v", "", some [⟨"string", "string$@"⟩]⟩] := by
  constructor
  · decide
  · decide

/-- Claim C4, counterexample: the field type `"$@"` strips to an empty
residual base name, yet resolution succeeds — no `MalformedTypeString` is
signalled; the schema holds a field whose base type is the empty string. -/
theorem c4_counterexample :
    eosio_abi_to_graphql_ast 1 abiEmptyType =
      .ok [("s", [⟨"f", "", ⟨true, true, false, true, true⟩⟩])] ∧
    stripMarkers "$@" = "" := by
  constructor
  · rfl
  · rfl

/-- Claim C4, amended: a field declaration whose raw type string consists only
of marker characters is not rejected: the resolver produces a field whose base
type is the empty residual string and whose `is_object` flag is true (the
empty string is not a Primitive Type Registry key). -/
theorem c4_empty_residual_no_error (f : FieldDecl)
    (h : stripMarkers f.type = "") :
    (mkAstField f).type = "" ∧ (mkAstField f).info.object = true := by
  constructor
  · simpa [mkAstField] using h
  · simp +decide [mkAstField, h]

/-- Claim C4, witness: the amended statement at the concrete field `{name:
"f", type: "$@"}`. -/
theorem c4_witness :
    (mkAstField ⟨"f", "$@"⟩).type = "" ∧
    (mkAstField ⟨"f", "$@"⟩).info.object = true :=
  c4_empty_residual_no_error ⟨"f", "$@"⟩ rfl

/-- Claim C8: the variant loop (lines 72-78) appends to the working struct
list, for each declared variant in order, a synthetic struct under the
variant's name, with no base, whose field list has exactly one field per
member type in declared order, named after the member with raw type the
member's name followed by `"$@"`. -/
theorem c8_variant_synthesis (structs : List StructEntry)
    (variants : List VariantDef) :
    variantPhase structs variants =
      structs ++ variants.map (fun v =>
        { name := v.name, base := "",
          fields := some (v.types.map (fun t =>
            { name := t, type := t ++ "$@" })) }) := by
  induction variants generalizing structs with
  | nil => simp [variantPhase]
  | cons v rest ih =>
    rw [variantPhase, ih]
    simp [synthVariantStruct, List.append_assoc]

/-- Claim C6: when a struct of the working list has a base name that no
working-list entry bears, or when an alias's real type was not found at the
point its copy was pushed (so the copy has no fields), resolution ends in an
error — it never returns a schema with the missing fields silently dropped. -/
theorem c6_missing_target_errors (fuel : Nat) (abi : ABI)
    (h : (∃ s, s ∈ workingStructs abi ∧ s.base ≠ "" ∧
            findStruct (workingStructs abi) s.base = none) ∨
         (∃ t1 a t2, abi.types = t1 ++ a :: t2 ∧
            findStruct (aliasPhase (variantPhase abi.structs abi.variants) t1)
              a.type = none)) :
    ∃ e, eosio_abi_to_graphql_ast fuel abi = .error e := by
  have hbad : ∃ s, s ∈ workingStructs abi ∧
      ∀ dl, fieldsWithBase fuel (workingStructs abi) s ≠ .ok dl := by
    rcases h with ⟨s, hmem, hb, hfind⟩ | ⟨t1, a, t2, htypes, hfind⟩
    · obtain ⟨e, he⟩ :=
        fieldsWithBase_err_of_ghost_base fuel (workingStructs abi) s hb hfind
      exact ⟨s, hmem, fun dl hdl => by rw [he] at hdl; exact absurd hdl (by simp)⟩
    · have hmem : (⟨a.new_type_name, "", none⟩ : StructEntry) ∈ workingStructs abi := by
        have h1 : workingStructs abi =
            aliasPhase (aliasPhase (variantPhase abi.structs abi.variants) t1)
              (a :: t2) := by
          rw [workingStructs, htypes, aliasPhase_append]
        have h2 : aliasCopy (aliasPhase (variantPhase abi.structs abi.variants) t1) a =
            ⟨a.new_type_name, "", none⟩ := by
          rw [aliasCopy, hfind]
        obtain ⟨extra, hextra⟩ := aliasPhase_extra t2
          (aliasPhase (variantPhase abi.structs abi.variants) t1 ++
            [aliasCopy (aliasPhase (variantPhase abi.structs abi.variants) t1) a])
        rw [h1, aliasPhase, hextra, h2]
        simp
      obtain ⟨e, he⟩ := fieldsWithBase_err_of_no_fields fuel (workingStructs abi)
        ⟨a.new_type_name, "", none⟩ rfl
      exact ⟨⟨a.new_type_name, "", none⟩, hmem,
        fun dl hdl => by rw [he] at hdl; exact absurd hdl (by simp)⟩
  obtain ⟨s, hmem, hne⟩ := hbad
  cases hres : eosio_abi_to_graphql_ast fuel abi with
  | error e => exact ⟨e, rfl⟩
  | ok out =>
    exfalso
    obtain ⟨dl, hdl⟩ := handleStructsGo_ok_forall fuel (workingStructs abi)
      (workingStructs abi) [] out hres s hmem
    exact hne dl hdl

/-- Claim C6, witness: an ABI whose only struct has `base: "ghost"` with no
struct of that name resolves to an error, not a schema. -/
theorem c6_witness : ∃ e, eosio_abi_to_graphql_ast 3 abiGhostBase = .error e :=
  c6_missing_target_errors 3 abiGhostBase
    (Or.inl ⟨⟨"s", "ghost", some []⟩, by decide, by decide, by decide⟩)

/-- Claim C10: when resolution returns a schema, each name is mapped to the
per-field transform of the LAST working-list entry bearing that name (the
working list being declared structs, then synthesized variant structs, then
alias copies): a later duplicate silently overwrites an earlier one, and the
duplication itself raises no error. -/
theorem c10_last_entry_wins (fuel : Nat) (abi : ABI)
    (schema : List (String × List AstField)) (k : String) (e : StructEntry)
    (h : eosio_abi_to_graphql_ast fuel abi = .ok schema)
    (hlast : findStruct (workingStructs abi).reverse k = some e) :
    ∃ dl, fieldsWithBase fuel (workingStructs abi) e = .ok dl ∧
      objLookup k schema = some (dl.map mkAstField) :=
  (handleStructs_lookup fuel (workingStructs abi) schema h k).1 e hlast

/-- The schema produced for `abiDupName`: the declared struct `X` is
overwritten by the synthesized variant struct `X`. -/
def schemaDupName : List (String × List AstField) :=
  [("X", [mkAstField ⟨"uint64", "uint64$@"⟩])]

/-- Claim C10, witness: in `abiDupName` a declared struct and a variant share
the name `X`; resolution succeeds and `X` maps to the synthesized variant
struct's fields (the last entry in processing order). -/
theorem c10_witness :
    ∃ dl, fieldsWithBase 1 (workingStructs abiDupName)
        ⟨"X", "", some [⟨"uint64", "uint64$@"⟩]⟩ = .ok dl ∧
      objLookup "X" schemaDupName = some (dl.map mkAstField) :=
  c10_last_entry_wins 1 abiDupName schemaDupName "X"
    ⟨"X", "", some [⟨"uint64", "uint64$@"⟩]⟩ rfl rfl

/-- Claim C5, counterexample: the ABI whose struct `s` declares fields
`x: string` and `x: ghost` resolves successfully to a schema whose `s` entry
carries two fields of the same name, and whose second field's base type
`ghost` is neither a Primitive Type Registry key nor a key of the schema
(whose only key is `s`): both halves of the claimed invariant fail. -/
theorem c5_counterexample :
    eosio_abi_to_graphql_ast 1 abiDupField =
      .ok [("s", [⟨"x", "string", ⟨false, false, false, false, false⟩⟩,
                  ⟨"x", "ghost", ⟨true, false, false, false, false⟩⟩])] ∧
    ¬ (["x", "x"] : List String).Nodup ∧
    eosio_types.contains "ghost" = false := by
  refine ⟨rfl, by decide, by decide⟩

/-- Claim C5, amended: resolution validates nothing about the flattened field
lists.  Whenever it succeeds, each schema entry is exactly the per-field
transform of the last working-list entry of that name: the resolved field
names are the declared (base-flattened) field names in order — duplicates
retained, not rejected — and each resolved field's `is_object` flag is true
precisely when its base type is not a primitive name, whether or not that
base type exists as a schema key. -/
theorem c5_no_validation (fuel : Nat) (abi : ABI)
    (schema : List (String × List AstField)) (k : String) (fl : List AstField)
    (h : eosio_abi_to_graphql_ast fuel abi = .ok schema)
    (hk : objLookup k schema = some fl) :
    ∃ e dl, findStruct (workingStructs abi).reverse k = some e ∧
      fieldsWithBase fuel (workingStructs abi) e = .ok dl ∧
      fl.map AstField.name = dl.map FieldDecl.name ∧
      ∀ f ∈ fl, f.info.object = !eosio_types.contains f.type := by
  have hs := handleStructs_lookup fuel (workingStructs abi) schema h k
  cases hfind : findStruct (workingStructs abi).reverse k with
  | none =>
    rw [hs.2 hfind] at hk
    exact absurd hk (by simp)
  | some e =>
    obtain ⟨dl, hdl, hlook⟩ := hs.1 e hfind
    rw [hlook] at hk
    have hfl : fl = dl.map mkAstField := by
      simpa using hk.symm
    subst hfl
    refine ⟨e, dl, rfl, hdl, ?_, ?_⟩
    · rw [List.map_map]
      exact List.map_congr_left fun d _ => rfl
    · intro f hf
      obtain ⟨d, hd, rfl⟩ := List.mem_map.mp hf
      rfl

/-- Claim C5, witness: the amended statement at `abiDupField`, whose resolved
`s` entry repeats the name `x` and flags `ghost` as object. -/
theorem c5_witness :
    ∃ e dl, findStruct (workingStructs abiDupField).reverse "s" = some e ∧
      fieldsWithBase 1 (workingStructs abiDupField) e = .ok dl ∧
      ([⟨"x", "string", ⟨false, false, false, false, false⟩⟩,
        ⟨"x", "ghost", ⟨true, false, false, false, false⟩⟩] : List AstField).map
          AstField.name = dl.map FieldDecl.name ∧
      ∀ f ∈ ([⟨"x", "string", ⟨false, false, false, false, false⟩⟩,
              ⟨"x", "ghost", ⟨true, false, false, false, false⟩⟩] : List AstField),
        f.info.object = !eosio_types.contains f.type :=
  c5_no_validation 1 abiDupField
    [("s", [⟨"x", "string", ⟨false, false, false, false, false⟩⟩,
            ⟨"x", "ghost", ⟨true, false, false, false, false⟩⟩])] "s"
    [⟨"x", "string", ⟨false, false, false, false, false⟩⟩,
     ⟨"x", "ghost", ⟨true, false, false, false, false⟩⟩] rfl rfl

/-- Claim C7: for a struct of the working list with a base reference, when
resolution succeeds (so the base chain is acyclic and fully declared) and the
working list's names are pairwise distinct, the schema entry for the struct is
the schema entry for its base — itself flattened transitively, outermost
ancestor first — followed by the transform of the struct's own declared
fields, in that order. -/
theorem c7_base_flattening (fuel : Nat) (abi : ABI)
    (schema : List (String × List AstField)) (c : StructEntry)
    (fc : List FieldDecl)
    (h : eosio_abi_to_graphql_ast fuel abi = .ok schema)
    (hnodup : ((workingStructs abi).map StructEntry.name).Nodup)
    (hc : c ∈ workingStructs abi) (hb : c.base ≠ "") (hf : c.fields = some fc) :
    ∃ bfl, objLookup c.base schema = some bfl ∧
      objLookup c.name schema = some (bfl ++ fc.map mkAstField) := by
  have hrev := findStruct_reverse_of_nodup (workingStructs abi) hnodup
  have hfindc : findStruct (workingStructs abi) c.name = some c :=
    findStruct_eq_of_mem_nodup (workingStructs abi) hnodup c hc
  have hs := handleStructs_lookup fuel (workingStructs abi) schema h
  obtain ⟨dl, hdl, hlookc⟩ := (hs c.name).1 c (by rw [hrev c.name]; exact hfindc)
  rw [fieldsWithBase, if_neg hb] at hdl
  cases hr : handleBaseFields fuel c.base (workingStructs abi) with
  | error e =>
    rw [hr, hbfCombine_error] at hdl
    exact absurd hdl (by simp)
  | ok bf =>
    rw [hr, hf, hbfCombine_ok_some] at hdl
    have hdl2 : dl = bf ++ fc := by simpa using hdl.symm
    subst hdl2
    cases fuel with
    | zero => simp [handleBaseFields] at hr
    | succ f =>
      cases hfindb : findStruct (workingStructs abi) c.base with
      | none =>
        rw [handleBaseFields_eq_none f c.base (workingStructs abi) hfindb] at hr
        exact absurd hr (by simp)
      | some b =>
        have hfwb : fieldsWithBase f (workingStructs abi) b = .ok bf := by
          rw [← handleBaseFields_succ_eq f c.base (workingStructs abi) b hfindb]
          exact hr
        have hfwb2 : fieldsWithBase (f + 1) (workingStructs abi) b = .ok bf :=
          fieldsWithBase_mono f (f + 1) (workingStructs abi) b bf (by omega) hfwb
        obtain ⟨dlb, hdlb, hlookb⟩ := (hs c.base).1 b (by rw [hrev c.base]; exact hfindb)
        have hdlb2 : dlb = bf := by
          rw [hfwb2] at hdlb
          simpa using hdlb.symm
        subst hdlb2
        refine ⟨dlb.map mkAstField, hlookb, ?_⟩
        rw [hlookc, List.map_append]

/-- The schema produced for `abiInherit`. -/
def schemaInherit : List (String × List AstField) :=
  [("B", [mkAstField ⟨"a", "string"⟩]),
   ("C", [mkAstField ⟨"a", "string"⟩, mkAstField ⟨"b", "string"⟩])]

/-- Claim C7, witness: in `abiInherit` (struct `B` with field `a`, struct `C`
with `base: "B"` and field `b`), `C` resolves to `B`'s fields followed by
`[b]` — the ordered field list `[a, b]`. -/
theorem c7_witness :
    ∃ bfl, objLookup "B" schemaInherit = some bfl ∧
      objLookup "C" schemaInherit = some (bfl ++ [mkAstField ⟨"b", "string"⟩]) :=
  c7_base_flattening 2 abiInherit schemaInherit
    ⟨"C", "B", some [⟨"b", "string"⟩]⟩ [⟨"b", "string"⟩]
    rfl (by decide) (by decide) (by decide) rfl

/-- Claim C9: for an alias `{new_type_name, type: real}` whose real type names
an entry of the working list as it stood when the alias was processed (after
variant synthesis, so variant-backed names work the same way), when resolution
succeeds and working-list names are otherwise distinct, the schema maps
`new_type_name` and `real` to the same resolved field list — alias and target
differ only in registered name. -/
theorem c9_alias_transparency (fuel : Nat) (abi : ABI)
    (schema : List (String × List AstField)) (t1 : List TypeAlias)
    (a : TypeAlias) (t2 : List TypeAlias) (e : StructEntry)
    (hT : abi.types = t1 ++ a :: t2)
    (hfind : findStruct (aliasPhase (variantPhase abi.structs abi.variants) t1)
      a.type = some e)
    (hnodup : ((workingStructs abi).map StructEntry.name).Nodup)
    (h : eosio_abi_to_graphql_ast fuel abi = .ok schema) :
    ∃ fl, objLookup a.type schema = some fl ∧
      objLookup a.new_type_name schema = some fl := by
  have hcopy : aliasCopy (aliasPhase (variantPhase abi.structs abi.variants) t1) a =
      { e with name := a.new_type_name } := by
    rw [aliasCopy, hfind]
  obtain ⟨extra, hextra⟩ := aliasPhase_extra t2
    (aliasPhase (variantPhase abi.structs abi.variants) t1 ++
      [aliasCopy (aliasPhase (variantPhase abi.structs abi.variants) t1) a])
  have hwork : workingStructs abi =
      aliasPhase (variantPhase abi.structs abi.variants) t1 ++
        [aliasCopy (aliasPhase (variantPhase abi.structs abi.variants) t1) a] ++
        extra := by
    rw [workingStructs, hT, aliasPhase_append, aliasPhase, hextra]
  have hmem_e : e ∈ workingStructs abi := by
    rw [hwork]
    have he2 : e ∈ aliasPhase (variantPhase abi.structs abi.variants) t1 :=
      (findStruct_mem_name _ a.type e hfind).1
    simp [he2]
  have hname_e : e.name = a.type := (findStruct_mem_name _ a.type e hfind).2
  have hmem_copy : ({ e with name := a.new_type_name } : StructEntry) ∈
      workingStructs abi := by
    rw [hwork, ← hcopy]
    simp
  have hs := handleStructs_lookup fuel (workingStructs abi) schema h
  have hrev := findStruct_reverse_of_nodup (workingStructs abi) hnodup
  have hfind_e : findStruct (workingStructs abi) a.type = some e := by
    rw [← hname_e]
    exact findStruct_eq_of_mem_nodup (workingStructs abi) hnodup e hmem_e
  have hfind_c : findStruct (workingStructs abi) a.new_type_name =
      some { e with name := a.new_type_name } :=
    findStruct_eq_of_mem_nodup (workingStructs abi) hnodup
      { e with name := a.new_type_name } hmem_copy
  obtain ⟨dle, hdle, hlooke⟩ := (hs a.type).1 e (by rw [hrev]; exact hfind_e)
  obtain ⟨dlc, hdlc, hlookc⟩ := (hs a.new_type_name).1
    { e with name := a.new_type_name } (by rw [hrev]; exact hfind_c)
  have hsame : fieldsWithBase fuel (workingStructs abi)
      { e with name := a.new_type_name } =
      fieldsWithBase fuel (workingStructs abi) e := rfl
  have hdd : dlc = dle := by
    rw [hsame, hdle] at hdlc
    simpa using hdlc.symm
  subst hdd
  exact ⟨dlc.map mkAstField, hlooke, hlookc⟩

/-- The schema produced for `abiAliasVariant`: `N` aliases the variant `V`. -/
def schemaAliasVariant : List (String × List AstField) :=
  [("B", [mkAstField ⟨"a", "string"⟩]),
   ("V", [mkAstField ⟨"string", "string$@"⟩]),
   ("N", [mkAstField ⟨"string", "string$@"⟩])]

/-- Claim C9, witness: in `abiAliasVariant` the alias `N -> V` targets the
synthesized variant struct `V` and both names resolve to the same field list. -/
theorem c9_witness :
    ∃ fl, objLookup "V" schemaAliasVariant = some fl ∧
      objLookup "N" schemaAliasVariant = some fl :=
  c9_alias_transparency 1 abiAliasVariant schemaAliasVariant [] ⟨"N", "V"⟩ []
    ⟨"V", "", some [⟨"string", "string$@"⟩]⟩ rfl rfl (by decide) rfl
